import Mathlib

/-!
Verification development for the self-play PPO training script
(`examples/ppo-selfplay.py`) and the environment-factory utility module
(`pytag/utils/common.py`).

Each Python fragment that a claim depends on is embedded as an executable
Lean definition; machine floats appearing in the buffers become exact
rationals, a trajectory tensor indexed `[row, env]` becomes a function
`Nat → Nat → ℚ` over its `num_steps` rows, subscripted through torch's
row-index semantics (`torchRow`: a negative index wraps from the end, an
out-of-range index raises `IndexError` — the script writes at `steps - 1`,
which is `-1` at a fresh cursor), and Python-level failures (a missing
module import, a missing attribute, an out-of-range subscript) are
surfaced through `Except`.
-/

namespace PpoSelfplay

/-! ## Shared list helpers -/

/-- Number of `true` entries in a boolean vector (`sum(train_ids)` on a 0/1
tensor). -/
def countTrue : List Bool → Nat
  | [] => 0
  | b :: l => (if b then 1 else 0) + countTrue l

@[simp] theorem countTrue_nil : countTrue [] = 0 := rfl

@[simp] theorem countTrue_cons (b : Bool) (l : List Bool) :
    countTrue (b :: l) = (if b then 1 else 0) + countTrue l := rfl

theorem countTrue_le_length (l : List Bool) : countTrue l ≤ l.length := by
  induction l with
  | nil => simp
  | cons b l ih =>
    cases b <;> simp [countTrue] <;> omega

/-! ## C1: the training script's import line

`ppo-selfplay.py` line 18 reads
`from pytag.utils.common import make_env, make_sp_env`.
A `from M import a, b` statement succeeds only when every requested name is
bound in module `M`; otherwise Python raises `ImportError` while the module
is being loaded, before any code of the `if __name__ == "__main__":` block
(argument parsing, environment construction, training) runs. -/

/-- The names defined at top level by `pytag/utils/common.py`
(lines 13, 33, 51, 54, 65). -/
def common_defs : List String :=
  ["make_ma_env", "make_env", "get_agent_list", "get_agent_class", "layer_init"]

/-- `from <moduleDefs> import <names>`: `ok` when every requested name is
defined by the module, `ImportError` naming the first missing one
otherwise. -/
def fromImport (moduleDefs : List String) (names : List String) :
    Except String Unit :=
  match names with
  | [] => .ok ()
  | n :: rest =>
    if moduleDefs.contains n then fromImport moduleDefs rest
    else .error ("ImportError: cannot import name " ++ n)

/-- The names `ppo-selfplay.py` line 18 requests from `pytag.utils.common`. -/
def ppo_selfplay_common_imports : List String := ["make_env", "make_sp_env"]

/-- Module-level execution of the training script, reduced to the phases the
claim distinguishes: first the import of `make_env, make_sp_env` from the
factory module, and only if that succeeds the main block (argument parsing,
environment construction, training), summarised as the string "main". -/
def scriptRun : Except String String := do
  let _ ← fromImport common_defs ppo_selfplay_common_imports
  pure "main"

/-- C1: running the training script on the supplied source fails at
module-import time — the requested name `make_sp_env` is not among the
five definitions of the factory module, so the import raises and the main block
(argument parsing, environment construction, training) is never reached. -/
theorem import_of_make_sp_env_fails :
    scriptRun = .error "ImportError: cannot import name make_sp_env"
      ∧ common_defs.contains "make_sp_env" = false
      ∧ common_defs =
        ["make_ma_env", "make_env", "get_agent_list", "get_agent_class",
         "layer_init"] := by
  refine ⟨rfl, by decide, rfl⟩

/-! ## `insert_at_indices` (`ppo-selfplay.py` lines 107-116)

```
def insert_at_indices(buffer, global_step, indices, values):
    if len(values) > 0:
        j = 0
        for i in range(len(indices)):
            if indices[i]:
                buffer[global_step[i], i] = values[j]
                j += 1
```
A buffer is a `[num_steps, num_envs]` tensor, embedded as a function
`Nat → Nat → α` over its `num_steps` rows and environment columns.  The
cursor vector (named `global_step` in the source) can carry `steps - 1`,
so a cursor can be negative; torch subscript assignment `buffer[r, i] = v`
accepts any row index `-num_steps ≤ r < num_steps`, wrapping a negative
`r` to row `num_steps + r`, and raises `IndexError` outside that range —
as do the subscripts `values[j]` and `global_step[i]` when `j` or `i` is
out of range.  Failures are surfaced through `Except`. -/

/-- torch row-index semantics for a buffer with `numSteps` rows: a
non-negative index below `numSteps` addresses its own row, a negative
index not below `-numSteps` wraps to row `numSteps + r`, anything else is
out of range. -/
def torchRow (numSteps : Nat) (r : Int) : Option Nat :=
  if 0 ≤ r ∧ r < (numSteps : Int) then some r.toNat
  else if -(numSteps : Int) ≤ r ∧ r < 0 then some (r + numSteps).toNat
  else none

theorem torchRow_of_nonneg (numSteps : Nat) (r : Int) (h0 : 0 ≤ r)
    (hN : r < (numSteps : Int)) : torchRow numSteps r = some r.toNat := by
  rw [torchRow, if_pos ⟨h0, hN⟩]

theorem torchRow_ne_none (numSteps : Nat) (r : Int)
    (hlo : -(numSteps : Int) ≤ r) (hhi : r < (numSteps : Int)) :
    torchRow numSteps r ≠ none := by
  rw [torchRow]
  by_cases h0 : 0 ≤ r
  · rw [if_pos ⟨h0, hhi⟩]
    simp
  · rw [if_neg (fun h => h0 h.1), if_pos ⟨hlo, by omega⟩]
    simp

/-- One tensor cell assignment `b[r, c] = v` at an already-normalised
row. -/
def updBuf {α : Type} (b : Nat → Nat → α) (r c : Nat) (v : α) :
    Nat → Nat → α :=
  fun r' c' => if r' = r ∧ c' = c then v else b r' c'

/-- The `for i in range(len(indices))` loop of `insert_at_indices`: `pos`
is the current value of `i`, the three lists walk in step over the cursor
vector, the boolean filter and the still-unconsumed `values` rows.  A
selected iteration evaluates `values[j]`, then `global_step[i]`, then the
subscript assignment — the source's evaluation order — raising
`IndexError` when a subscript is out of range; an in-range cursor is
normalised by `torchRow`. -/
def iaiGo {α : Type} (numSteps : Nat) (b : Nat → Nat → α) (pos : Nat) :
    List Int → List Bool → List α → Except String (Nat → Nat → α)
  | _, [], _ => .ok b
  | cs, flag :: fs, vs =>
    if flag then
      match vs with
      | [] => .error "IndexError"
      | v :: vs' =>
        match cs with
        | [] => .error "IndexError"
        | c :: cs' =>
          match torchRow numSteps c with
          | none => .error "IndexError"
          | some r => iaiGo numSteps (updBuf b r pos v) (pos + 1) cs' fs vs'
    else iaiGo numSteps b (pos + 1) cs.tail fs vs

/-- `insert_at_indices` itself: guarded by `if len(values) > 0`. -/
def insert_at_indices {α : Type} (numSteps : Nat) (buffer : Nat → Nat → α)
    (global_step : List Int) (indices : List Bool) (values : List α) :
    Except String (Nat → Nat → α) :=
  if 0 < values.length then iaiGo numSteps buffer 0 global_step indices
    values
  else .ok buffer

@[simp] theorem iaiGo_nil_filter {α : Type} (numSteps : Nat)
    (b : Nat → Nat → α) (pos : Nat) (cs : List Int) (vs : List α) :
    iaiGo numSteps b pos cs [] vs = .ok b := by
  cases cs <;> rfl

@[simp] theorem iaiGo_cons_false {α : Type} (numSteps : Nat)
    (b : Nat → Nat → α) (pos : Nat) (cs : List Int) (fs : List Bool)
    (vs : List α) :
    iaiGo numSteps b pos cs (false :: fs) vs =
      iaiGo numSteps b (pos + 1) cs.tail fs vs := by
  cases cs <;> simp [iaiGo]

@[simp] theorem iaiGo_cons_true_vnil {α : Type} (numSteps : Nat)
    (b : Nat → Nat → α) (pos : Nat) (cs : List Int) (fs : List Bool) :
    iaiGo numSteps b pos cs (true :: fs) ([] : List α) =
      .error "IndexError" := by
  cases cs <;> simp [iaiGo]

@[simp] theorem iaiGo_cons_true_cnil {α : Type} (numSteps : Nat)
    (b : Nat → Nat → α) (pos : Nat) (fs : List Bool) (v : α)
    (vs : List α) :
    iaiGo numSteps b pos [] (true :: fs) (v :: vs) =
      .error "IndexError" := by
  simp [iaiGo]

theorem iaiGo_cons_true_some {α : Type} (numSteps : Nat)
    (b : Nat → Nat → α) (pos : Nat) (c : Int) (cs : List Int)
    (fs : List Bool) (v : α) (vs : List α) (r : Nat)
    (htr : torchRow numSteps c = some r) :
    iaiGo numSteps b pos (c :: cs) (true :: fs) (v :: vs) =
      iaiGo numSteps (updBuf b r pos v) (pos + 1) cs fs vs := by
  simp [iaiGo, htr]

/-- Combined characterisation of the loop on cursor vectors that are in
range at every selected position: it succeeds, leaves every column left of
the start untouched, leaves every cell untargeted by a selected
(torch-normalised) cursor untouched, and writes the k-th unconsumed value
row at the k-th selected position's normalised cell. -/
theorem iaiGo_ok_props {α : Type} (numSteps : Nat) (d : α)
    (fs : List Bool) :
    ∀ (b : Nat → Nat → α) (pos : Nat) (cs : List Int) (vs : List α),
      cs.length = fs.length →
      countTrue fs ≤ vs.length →
      (∀ i, i < fs.length → fs.getD i false = true →
        torchRow numSteps (cs.getD i 0) ≠ none) →
      ∃ out, iaiGo numSteps b pos cs fs vs = .ok out
        ∧ (∀ (r c : Nat), c < pos → out r c = b r c)
        ∧ (∀ (r c : Nat),
            (∀ i, i < fs.length → fs.getD i false = true →
              ¬(c = pos + i ∧ torchRow numSteps (cs.getD i 0) = some r)) →
            out r c = b r c)
        ∧ (∀ i, i < fs.length → fs.getD i false = true →
            ∀ r, torchRow numSteps (cs.getD i 0) = some r →
            out r (pos + i) = vs.getD (countTrue (fs.take i)) d) := by
  induction fs with
  | nil =>
    intro b pos cs vs _ _ _
    exact ⟨b, by simp, fun r c _ => rfl, fun r c _ => rfl,
      fun i hi _ => absurd hi (by simp)⟩
  | cons flag fs ih =>
    intro b pos cs vs hlen hcount hvalid
    cases cs with
    | nil => exact absurd hlen (by simp)
    | cons c0 cs =>
      cases flag with
      | false =>
        obtain ⟨out, heq, hcol, hframe, hwrite⟩ :=
          ih b (pos + 1) cs vs (by simpa using hlen)
            (by simpa [countTrue] using hcount)
            (fun i hi hfi => by
              simpa using hvalid (i + 1) (by simpa using Nat.succ_lt_succ hi)
                (by simpa using hfi))
        refine ⟨out, ?_, ?_, ?_, ?_⟩
        · rw [iaiGo_cons_false]
          exact heq
        · exact fun r c hc => hcol r c (by omega)
        · intro r c hcond
          refine hframe r c (fun i hi hfi => ?_)
          have h := hcond (i + 1) (by simpa using Nat.succ_lt_succ hi)
            (by simpa using hfi)
          simpa [Nat.add_assoc, Nat.add_comm 1 i] using h
        · intro i hi hfi r htr
          cases i with
          | zero => simp at hfi
          | succ i' =>
            have h := hwrite i' (by simpa using hi) (by simpa using hfi) r
              (by simpa using htr)
            rw [show pos + (i' + 1) = (pos + 1) + i' by omega]
            simpa [countTrue] using h
      | true =>
        have hone : 1 ≤ vs.length := by
          simp [countTrue] at hcount
          omega
        cases vs with
        | nil => exact absurd hone (by simp)
        | cons v vs =>
          have hV0 := hvalid 0 (by simp) (by simp)
          rw [List.getD_cons_zero] at hV0
          cases htr0 : torchRow numSteps c0 with
          | none => exact absurd htr0 hV0
          | some r0 =>
            obtain ⟨out, heq, hcol, hframe, hwrite⟩ :=
              ih (updBuf b r0 pos v) (pos + 1) cs vs
                (by simpa using hlen)
                (by simp [countTrue] at hcount; omega)
                (fun i hi hfi => by
                  simpa using hvalid (i + 1)
                    (by simpa using Nat.succ_lt_succ hi)
                    (by simpa using hfi))
            refine ⟨out, ?_, ?_, ?_, ?_⟩
            · rw [iaiGo_cons_true_some numSteps b pos c0 cs fs v vs r0 htr0]
              exact heq
            · intro r c hc
              rw [hcol r c (by omega)]
              simp only [updBuf]
              rw [if_neg (fun h => absurd h.2 (by omega))]
            · intro r c hcond
              have h0 := hcond 0 (by simp) (by simp)
              simp only [Nat.add_zero, List.getD_cons_zero] at h0
              refine Eq.trans (hframe r c (fun i hi hfi => ?_)) ?_
              · have h := hcond (i + 1) (by simpa using Nat.succ_lt_succ hi)
                  (by simpa using hfi)
                simpa [Nat.add_assoc, Nat.add_comm 1 i] using h
              · simp only [updBuf]
                rw [if_neg (fun h => h0 ⟨h.2, by rw [htr0, h.1]⟩)]
            · intro i hi hfi r htr
              cases i with
              | zero =>
                rw [List.getD_cons_zero, htr0] at htr
                have hr : r0 = r := Option.some_inj.mp htr
                subst hr
                have hpz : pos + 0 = pos := rfl
                rw [hpz, hcol r0 pos (Nat.lt_succ_self pos)]
                simp [updBuf, countTrue]
              | succ i' =>
                have h := hwrite i' (by simpa using hi) (by simpa using hfi)
                  r (by simpa using htr)
                rw [show pos + (i' + 1) = (pos + 1) + i' by omega, h,
                  List.take_succ_cons, countTrue_cons, if_pos rfl,
                  Nat.add_comm 1 (countTrue (List.take i' fs))]
                simp [List.getD_cons_succ]

/-- A filter that selects position `i` has at least one `true` entry. -/
theorem one_le_countTrue_of_getD (l : List Bool) :
    ∀ i : Nat, i < l.length → l.getD i false = true → 1 ≤ countTrue l := by
  induction l with
  | nil => intro i hi _; exact absurd hi (by simp)
  | cons b l ih =>
    intro i hi hb
    cases i with
    | zero =>
      simp only [List.getD_cons_zero] at hb
      subst hb
      simp [countTrue]
    | succ i' =>
      have := ih i' (by simpa using hi) (by simpa using hb)
      cases b
      · simpa [countTrue] using this
      · simp [countTrue]

/-- `insert_at_indices` succeeds on in-range selected cursors and its
result satisfies the write and frame properties; with empty `values` the
guard makes it a no-op. -/
theorem insert_ok_props {α : Type} (numSteps : Nat) (d : α)
    (buffer : Nat → Nat → α) (global_step : List Int) (indices : List Bool)
    (values : List α)
    (hlen : global_step.length = indices.length)
    (hcount : countTrue indices ≤ values.length)
    (hvalid : ∀ i, i < indices.length → indices.getD i false = true →
      torchRow numSteps (global_step.getD i 0) ≠ none) :
    ∃ out,
      insert_at_indices numSteps buffer global_step indices values = .ok out
      ∧ (∀ i, i < indices.length → indices.getD i false = true →
          ∀ r, torchRow numSteps (global_step.getD i 0) = some r →
          out r i = values.getD (countTrue (indices.take i)) d)
      ∧ (∀ (r c : Nat),
          ¬(c < indices.length ∧ indices.getD c false = true ∧
            torchRow numSteps (global_step.getD c 0) = some r) →
          out r c = buffer r c) := by
  by_cases hpos : 0 < values.length
  · obtain ⟨out, heq, hcol, hframe, hwrite⟩ :=
      iaiGo_ok_props numSteps d indices buffer 0 global_step values hlen
        hcount hvalid
    refine ⟨out, ?_, ?_, ?_⟩
    · rw [insert_at_indices, if_pos hpos]
      exact heq
    · intro i hi hfi r htr
      have h := hwrite i hi hfi r htr
      simpa using h
    · intro r c hcond
      refine hframe r c (fun i hi hfi => ?_)
      intro hcontra
      obtain ⟨hci, hri⟩ := hcontra
      have hci' : c = i := by omega
      subst hci'
      exact hcond ⟨hi, hfi, hri⟩
  · refine ⟨buffer, ?_, ?_, fun r c _ => rfl⟩
    · rw [insert_at_indices, if_neg hpos]
    · intro i hi hfi r htr
      exact absurd
        (le_trans (one_le_countTrue_of_getD indices i hi hfi) hcount)
        (by omega)

/-- Reads cell `(r, c)` of the buffer produced by `insert_at_indices`;
`none` when the call raised. -/
def insertCell (numSteps : Nat) (buffer : Nat → Nat → ℚ)
    (global_step : List Int) (indices : List Bool) (values : List ℚ)
    (r c : Nat) : Option ℚ :=
  match insert_at_indices numSteps buffer global_step indices values with
  | .error _ => none
  | .ok out => some (out r c)

/-- C8 counterexample.  On a 4-row buffer, cursor 4 is out of range:
`insert_at_indices` raises `IndexError` (the embedding returns `.error`,
not a written buffer), so the claimed targeted write with every other cell
unchanged does not happen for that cursor vector.  And cursor `-1` does
not address a cell outside the buffer: torch wraps it to the last row, so
the value lands in row 3. -/
theorem insert_at_indices_out_of_range_counterexample :
    insert_at_indices 4 (fun _ _ => (0 : ℚ)) [4] [true] [10] =
      .error "IndexError"
    ∧ insertCell 4 (fun _ _ => (0 : ℚ)) [-1] [true] [10] 3 0 = some 10 :=
  ⟨rfl, rfl⟩

/-- C8 (amended): for a buffer of `num_steps` rows, a cursor vector whose
entries at `true` filter positions are valid torch row indices
(`-num_steps ≤ c < num_steps`), and a values sequence with at least as
many rows as `true` filter entries, `insert_at_indices` succeeds and
writes the k-th unconsumed row of `values` into column `i` at the
torch-normalised row of `cursors[i]` — the row itself when non-negative,
`num_steps + cursors[i]` when negative — for the k-th index `i` (in
increasing order) where `filter[i]` is true; every other cell of the
buffer is unchanged; and when `values` is empty the call is a no-op that
raises no error, whatever the cursors. -/
theorem insert_at_indices_frame_and_writes {α : Type} (numSteps : Nat)
    (buffer : Nat → Nat → α) (global_step : List Int) (indices : List Bool)
    (values : List α) (d : α) :
    (global_step.length = indices.length →
      countTrue indices ≤ values.length →
      (∀ i, i < indices.length → indices.getD i false = true →
        torchRow numSteps (global_step.getD i 0) ≠ none) →
      ∃ out,
        insert_at_indices numSteps buffer global_step indices values =
          .ok out
        ∧ (∀ i, i < indices.length → indices.getD i false = true →
            ∀ r, torchRow numSteps (global_step.getD i 0) = some r →
            out r i = values.getD (countTrue (indices.take i)) d)
        ∧ (∀ (r c : Nat),
            ¬(c < indices.length ∧ indices.getD c false = true ∧
              torchRow numSteps (global_step.getD c 0) = some r) →
            out r c = buffer r c))
    ∧ (values = [] →
        insert_at_indices numSteps buffer global_step indices values =
          .ok buffer) := by
  refine ⟨fun hlen hcount hvalid => insert_ok_props numSteps d buffer
    global_step indices values hlen hcount hvalid, fun hempty => ?_⟩
  rw [insert_at_indices, if_neg (by simp [hempty])]

/-- Witness for the amended C8 on a 4-row buffer: filter
`[true, false, true]`, cursors `[3, 9, -1]` (the `false` position's cursor
9 is never accessed), two value rows.  Position 0 writes row 3 of column
0, position 2 wraps cursor `-1` to row 3 of column 2, an untargeted cell
stays 0, and empty values are a no-op. -/
theorem insert_at_indices_frame_and_writes_witness :
    insertCell 4 (fun _ _ => (0 : ℚ)) [3, 9, -1] [true, false, true]
        [10, 20] 3 0 = some 10
    ∧ insertCell 4 (fun _ _ => (0 : ℚ)) [3, 9, -1] [true, false, true]
        [10, 20] 3 2 = some 20
    ∧ insertCell 4 (fun _ _ => (0 : ℚ)) [3, 9, -1] [true, false, true]
        [10, 20] 0 1 = some 0
    ∧ insert_at_indices 4 (fun _ _ => (0 : ℚ)) [3, 9, -1]
        [true, false, true] ([] : List ℚ) = .ok (fun _ _ => (0 : ℚ)) := by
  have h := insert_at_indices_frame_and_writes 4 (fun _ _ => (0 : ℚ))
    [3, 9, -1] [true, false, true] [10, 20] (0 : ℚ)
  obtain ⟨out, heq, hw, hf⟩ := h.1 (by decide) (by decide) (by decide)
  refine ⟨?_, ?_, ?_, ?_⟩
  · have hcell := hw 0 (by decide) (by decide) 3 (by decide)
    simp only [insertCell, heq]
    rw [hcell]
    rfl
  · have hcell := hw 2 (by decide) (by decide) 3 (by decide)
    simp only [insertCell, heq]
    rw [hcell]
    rfl
  · have hcell := hf 0 1 (by decide)
    simp only [insertCell, heq]
    rw [hcell]
  · have h2 := insert_at_indices_frame_and_writes 4 (fun _ _ => (0 : ℚ))
      [3, 9, -1] [true, false, true] ([] : List ℚ) (0 : ℚ)
    exact h2.2 rfl

/-! ## Reward/done writes of a rollout sub-step (`ppo-selfplay.py` 409-417)

```
insert_at_indices(rewards, steps, train_ids, reward)
insert_at_indices(dones, steps, train_ids, done)
insert_at_indices(rewards, steps-1, torch.logical_and(done, ~train_ids.bool()).int(), reward)
insert_at_indices(dones, steps-1, torch.logical_and(done, ~train_ids.bool()).int(), done)
```
`reward` and `done` are the full per-environment vectors returned by the
vectorized `envs.step`; `done` is a 0/1 float tensor, so
`torch.logical_and(done, ~train_ids.bool())` is true exactly where the
done entry is nonzero and the train flag is false.  The buffers have
`num_steps` rows; a cursor of 0 makes `steps - 1` equal to `-1`, which
torch wraps to the last row (`num_steps - 1`).  A raised exception aborts
the calls after it. -/

/-- The filter of the second write pair:
`torch.logical_and(done, ~train_ids.bool())`. -/
def oppTermFilter (done : List ℚ) (train_ids : List Bool) : List Bool :=
  (done.zip train_ids).map (fun p => decide (p.1 ≠ 0) && !p.2)

/-- The four buffer writes a rollout sub-step performs after
`envs.step` (source lines 411-417), in the source's order, returning the
updated `(rewards, dones)` buffers or the first raised error. -/
def rolloutRewardDoneWrites (numSteps : Nat)
    (rewards dones : Nat → Nat → ℚ) (steps : List Int)
    (train_ids : List Bool) (reward done : List ℚ) :
    Except String ((Nat → Nat → ℚ) × (Nat → Nat → ℚ)) :=
  match insert_at_indices numSteps rewards steps train_ids reward with
  | .error e => .error e
  | .ok rewards1 =>
    match insert_at_indices numSteps dones steps train_ids done with
    | .error e => .error e
    | .ok dones1 =>
      match insert_at_indices numSteps rewards1
          (steps.map (fun s => s - 1)) (oppTermFilter done train_ids)
          reward with
      | .error e => .error e
      | .ok rewards2 =>
        match insert_at_indices numSteps dones1
            (steps.map (fun s => s - 1)) (oppTermFilter done train_ids)
            done with
        | .error e => .error e
        | .ok dones2 => .ok (rewards2, dones2)

/-- Reads cell `(r, c)` of the rewards buffer left by the write block;
`none` when the block raised. -/
def rolloutRewardCell (numSteps : Nat) (rewards dones : Nat → Nat → ℚ)
    (steps : List Int) (train_ids : List Bool) (reward done : List ℚ)
    (r c : Nat) : Option ℚ :=
  match rolloutRewardDoneWrites numSteps rewards dones steps train_ids
      reward done with
  | .error _ => none
  | .ok (rew, _) => some (rew r c)

/-- C2 counterexample.  Two environments with 8-row buffers, cursors
`steps = [3, 5]`, the learning agent acted only in environment 1
(`train_ids = [false, true]`), no episode ended (`done = [0, 0]`), rewards
`[5, 7]`.  The claim predicts that every environment is written at its
current cursor with its own reward, i.e. `rewards[3, 0] = 5` and
`rewards[5, 1] = 7`.  The code writes only environment 1 (the first
insert's filter is `train_ids`), and gives it `reward[0] = 5` — the value
rows are consumed from the front of the full reward vector, not aligned to
environment indices. -/
theorem rollout_reward_writes_counterexample :
    rolloutRewardCell 8 (fun _ _ => 0) (fun _ _ => 0) [3, 5] [false, true]
        [5, 7] [0, 0] 3 0 = some 0
    ∧ rolloutRewardCell 8 (fun _ _ => 0) (fun _ _ => 0) [3, 5]
        [false, true] [5, 7] [0, 0] 5 1 = some 5
    ∧ ¬(rolloutRewardCell 8 (fun _ _ => 0) (fun _ _ => 0) [3, 5]
          [false, true] [5, 7] [0, 0] 3 0 = some 5
        ∧ rolloutRewardCell 8 (fun _ _ => 0) (fun _ _ => 0) [3, 5]
          [false, true] [5, 7] [0, 0] 5 1 = some 7) := by
  refine ⟨rfl, rfl, ?_⟩
  intro hcontra
  have h0 : rolloutRewardCell 8 (fun _ _ => 0) (fun _ _ => 0) [3, 5]
      [false, true] [5, 7] [0, 0] 3 0 = some 0 := rfl
  have h5 := h0.symm.trans hcontra.1
  rw [Option.some_inj] at h5
  norm_num at h5

@[simp] theorem oppTermFilter_nil_left (train : List Bool) :
    oppTermFilter [] train = [] := rfl

@[simp] theorem oppTermFilter_nil_right (done : List ℚ) :
    oppTermFilter done [] = [] := by
  simp [oppTermFilter]

@[simp] theorem oppTermFilter_cons (d : ℚ) (ds : List ℚ) (t : Bool)
    (ts : List Bool) :
    oppTermFilter (d :: ds) (t :: ts) =
      (decide (d ≠ 0) && !t) :: oppTermFilter ds ts := rfl

theorem oppTermFilter_length (done : List ℚ) (train : List Bool)
    (h : done.length = train.length) :
    (oppTermFilter done train).length = train.length := by
  simp [oppTermFilter, h]

theorem oppTermFilter_getD (done : List ℚ) (train : List Bool) :
    ∀ i : Nat, i < train.length → done.length = train.length →
      (oppTermFilter done train).getD i false =
        (decide (done.getD i 0 ≠ 0) && !(train.getD i false)) := by
  induction train generalizing done with
  | nil => intro i hi _; exact absurd hi (by simp)
  | cons t ts ih =>
    intro i hi hlen
    cases done with
    | nil => exact absurd hlen (by simp)
    | cons d ds =>
      cases i with
      | zero => simp
      | succ i' =>
        simp only [oppTermFilter_cons, List.getD_cons_succ]
        exact ih ds i' (by simpa using hi) (by simpa using hlen)

theorem getD_map_sub_one (l : List Int) :
    ∀ i : Nat, i < l.length →
      (l.map (fun s => s - 1)).getD i 0 = l.getD i 0 - 1 := by
  induction l with
  | nil => intro i hi; exact absurd hi (by simp)
  | cons x xs ih =>
    intro i hi
    cases i with
    | zero => simp
    | succ i' => simpa using ih i' (by simpa using hi)

/-- C2 (amended): in every rollout sub-step, after `envs.step` the reward
and done vectors are scatter-written into the `num_steps`-row trajectory
buffers, but with filter `train_ids` — only the environments where the
learning agent acted are written, at their current cursor — and
additionally with filter `done ∧ ¬train_ids` at cursor − 1, the
torch-normalised row that wraps to the last buffer row (`num_steps − 1`)
when the cursor is 0, for every environment whose episode just ended on an
opponent's turn.  In each of the two write pairs the k-th selected
environment (in increasing environment order) receives row k of the full
per-environment reward/done vector, which is that environment's own value
only when exactly the first k environment indices contain the earlier
selected ones; every untargeted buffer cell is unchanged. -/
theorem rollout_reward_writes_amended (numSteps : Nat)
    (rewards dones : Nat → Nat → ℚ) (steps : List Int)
    (train_ids : List Bool) (reward done : List ℚ)
    (hs : steps.length = train_ids.length)
    (hr : reward.length = train_ids.length)
    (hd : done.length = train_ids.length)
    (hrange : ∀ i, i < train_ids.length →
      0 ≤ steps.getD i 0 ∧ steps.getD i 0 < (numSteps : Int)) :
    ∃ rew dn,
      rolloutRewardDoneWrites numSteps rewards dones steps train_ids
        reward done = .ok (rew, dn)
      ∧ (∀ i, i < train_ids.length → train_ids.getD i false = true →
          ∀ r, torchRow numSteps (steps.getD i 0) = some r →
          rew r i = reward.getD (countTrue (train_ids.take i)) 0
          ∧ dn r i = done.getD (countTrue (train_ids.take i)) 0)
      ∧ (∀ i, i < train_ids.length →
          (oppTermFilter done train_ids).getD i false = true →
          ∀ r, torchRow numSteps (steps.getD i 0 - 1) = some r →
          rew r i = reward.getD
            (countTrue ((oppTermFilter done train_ids).take i)) 0
          ∧ dn r i = done.getD
            (countTrue ((oppTermFilter done train_ids).take i)) 0)
      ∧ (∀ (r c : Nat),
          ¬(c < train_ids.length ∧ train_ids.getD c false = true ∧
            torchRow numSteps (steps.getD c 0) = some r) →
          ¬(c < train_ids.length ∧
            (oppTermFilter done train_ids).getD c false = true ∧
            torchRow numSteps (steps.getD c 0 - 1) = some r) →
          rew r c = rewards r c ∧ dn r c = dones r c) := by
  have hf2len : (oppTermFilter done train_ids).length = train_ids.length :=
    oppTermFilter_length done train_ids hd
  have hs1len : (steps.map (fun s => s - 1)).length =
      (oppTermFilter done train_ids).length := by
    rw [List.length_map, hs, hf2len]
  have hcr : countTrue train_ids ≤ reward.length := by
    rw [hr]; exact countTrue_le_length train_ids
  have hcd : countTrue train_ids ≤ done.length := by
    rw [hd]; exact countTrue_le_length train_ids
  have hcr2 : countTrue (oppTermFilter done train_ids) ≤ reward.length := by
    rw [hr, ← hf2len]; exact countTrue_le_length _
  have hcd2 : countTrue (oppTermFilter done train_ids) ≤ done.length := by
    rw [hd, ← hf2len]; exact countTrue_le_length _
  have hvalid1 : ∀ i, i < train_ids.length →
      train_ids.getD i false = true →
      torchRow numSteps (steps.getD i 0) ≠ none := by
    intro i hi _
    exact torchRow_ne_none numSteps _
      (by have := (hrange i hi).1; omega) (hrange i hi).2
  have hvalid2 : ∀ i, i < (oppTermFilter done train_ids).length →
      (oppTermFilter done train_ids).getD i false = true →
      torchRow numSteps ((steps.map (fun s => s - 1)).getD i 0) ≠ none := by
    intro i hi _
    have hi' : i < train_ids.length := by rw [← hf2len]; exact hi
    rw [getD_map_sub_one steps i (by rw [hs]; exact hi')]
    have h1 := (hrange i hi').1
    have h2 := (hrange i hi').2
    exact torchRow_ne_none numSteps _ (by omega) (by omega)
  obtain ⟨out1, heq1, hw1, hfr1⟩ := insert_ok_props numSteps (0 : ℚ)
    rewards steps train_ids reward (by rw [hs]) hcr hvalid1
  obtain ⟨out2, heq2, hw2, hfr2⟩ := insert_ok_props numSteps (0 : ℚ)
    dones steps train_ids done (by rw [hs]) hcd hvalid1
  obtain ⟨out3, heq3, hw3, hfr3⟩ := insert_ok_props numSteps (0 : ℚ)
    out1 (steps.map (fun s => s - 1)) (oppTermFilter done train_ids)
    reward hs1len hcr2 hvalid2
  obtain ⟨out4, heq4, hw4, hfr4⟩ := insert_ok_props numSteps (0 : ℚ)
    out2 (steps.map (fun s => s - 1)) (oppTermFilter done train_ids)
    done hs1len hcd2 hvalid2
  refine ⟨out3, out4, ?_, ?_, ?_, ?_⟩
  · simp only [rolloutRewardDoneWrites, heq1, heq2, heq3, heq4]
  · intro i hi hti r htr
    have hf2i : (oppTermFilter done train_ids).getD i false = false := by
      rw [oppTermFilter_getD done train_ids i hi hd, hti]
      simp
    have hnot : ¬(i < (oppTermFilter done train_ids).length ∧
        (oppTermFilter done train_ids).getD i false = true ∧
        torchRow numSteps ((steps.map (fun s => s - 1)).getD i 0) = some r)
        := fun hcon => absurd hcon.2.1 (by rw [hf2i]; simp)
    exact ⟨by rw [hfr3 r i hnot]; exact hw1 i hi hti r htr,
      by rw [hfr4 r i hnot]; exact hw2 i hi hti r htr⟩
  · intro i hi hf2i r htr
    have hif2 : i < (oppTermFilter done train_ids).length := by
      rw [hf2len]; exact hi
    have hmap : (steps.map (fun s => s - 1)).getD i 0 =
        steps.getD i 0 - 1 :=
      getD_map_sub_one steps i (by rw [hs]; exact hi)
    exact ⟨hw3 i hif2 hf2i r (by rw [hmap]; exact htr),
      hw4 i hif2 hf2i r (by rw [hmap]; exact htr)⟩
  · intro r c h1 h2
    have hnot2 : ¬(c < (oppTermFilter done train_ids).length ∧
        (oppTermFilter done train_ids).getD c false = true ∧
        torchRow numSteps ((steps.map (fun s => s - 1)).getD c 0) = some r)
        := by
      intro hcon
      obtain ⟨hc1, hc2, hc3⟩ := hcon
      rw [hf2len] at hc1
      rw [getD_map_sub_one steps c (by rw [hs]; exact hc1)] at hc3
      exact h2 ⟨hc1, hc2, hc3⟩
    exact ⟨by rw [hfr3 r c hnot2, hfr1 r c h1],
      by rw [hfr4 r c hnot2, hfr2 r c h1]⟩

/-- Witness for the amended C2 at a concrete sub-step with 8-row buffers:
environment 0's episode ends on the opponent's turn at cursor 0
(`done[0] = 1`, `train_ids[0] = false`), so its reward is written at
cursor − 1 = −1, which torch wraps to row 7; environment 1's learning
agent acted at cursor 5 and is written there; an untargeted cell stays 0.
Both writes receive row 0 of the reward vector. -/
theorem rollout_reward_writes_amended_witness :
    rolloutRewardCell 8 (fun _ _ => 0) (fun _ _ => 0) [0, 5] [false, true]
        [5, 7] [1, 0] 5 1 = some 5
    ∧ rolloutRewardCell 8 (fun _ _ => 0) (fun _ _ => 0) [0, 5]
        [false, true] [5, 7] [1, 0] 7 0 = some 5
    ∧ rolloutRewardCell 8 (fun _ _ => 0) (fun _ _ => 0) [0, 5]
        [false, true] [5, 7] [1, 0] 3 0 = some 0 := by
  obtain ⟨rew, dn, heq, hw1, hw2, hfr⟩ := rollout_reward_writes_amended 8
    (fun _ _ => 0) (fun _ _ => 0) [0, 5] [false, true] [5, 7] [1, 0]
    (by decide) (by decide) (by decide) (by decide)
  refine ⟨?_, ?_, ?_⟩
  · have hcell := (hw1 1 (by decide) (by decide) 5 (by decide)).1
    simp only [rolloutRewardCell, heq]
    rw [hcell]
    rfl
  · have hcell := (hw2 0 (by decide) (by decide) 7 (by decide)).1
    simp only [rolloutRewardCell, heq]
    rw [hcell]
    rfl
  · have hcell := (hfr 3 0 (by decide) (by decide)).1
    simp only [rolloutRewardCell, heq]
    rw [hcell]

/-! ## Per-sub-step bookkeeping of the rollout loop

`ppo-selfplay.py` lines 373-446, reduced to the quantities the cadence and
step-count claims are about:

```
if len(next_obs > 0):
    global_step += sum(train_ids).item()            # lines 375-377
    ...
if global_step % training_manager.checkpoint_freq < sum(train_ids):   # 387
    training_manager.add_checkpoint(args, agent, global_step)
if global_step % training_manager.replace_freq < sum(train_ids):      # 389
    opponent = training_manager.sample_opponent()
...
learning_id = torch.from_numpy(info["learning_player"]).to(device)    # 428
player_id = torch.from_numpy(info["player_id"]).to(device)            # 429
train_ids = (learning_id == player_id).int()                          # 430
...
if global_step % args.eval_freq <= sum(train_ids).item():             # 446
    evaluate(args, agent, global_step, opponents=["random", "osla", "mcts"])
```

`next_obs` at line 375 is the learning-agent partition produced by
`split_obs`, which has `sum(train_ids)` rows (`train_ids` is the 0/1 form
of the pre-step boolean filter), so the guard `len(next_obs > 0)` — `len`
of the elementwise comparison tensor, i.e. its row count — is truthy
exactly when at least one learning-agent row exists.  Note that line 446
runs after line 430 has re-read `train_ids` from the post-step info, and
compares with `<=` where lines 387/389 compare with `<`. -/

structure SubstepFlags where
  globalStep : Nat
  checkpointFires : Bool
  replaceFires : Bool
  evalFires : Bool

/-- The `global_step` advance and the three cadence checks of one rollout
sub-step.  `train_ids` is the pre-step filter (who acts this sub-step);
`train_ids_next` is the filter re-read from the step's info at line 430,
which is the one line 446 sums. -/
def substepCadence (global_step : Nat) (train_ids : List Bool)
    (checkpoint_freq replace_freq eval_freq : Nat)
    (train_ids_next : List Bool) : SubstepFlags :=
  let k := countTrue train_ids
  let gs := if k ≠ 0 then global_step + k else global_step
  { globalStep := gs
    checkpointFires := decide (gs % checkpoint_freq < k)
    replaceFires := decide (gs % replace_freq < k)
    evalFires := decide (gs % eval_freq ≤ countTrue train_ids_next) }

/-- C3 counterexample.  Two concrete sub-steps on which the evaluation
check at line 446 disagrees with the `global_step mod eval_freq <
count_of_learning_decisions_this_substep` test the claim states.
First: no learning-agent decision this sub-step (`train_ids = [false,
false]`), `global_step = 10`, `eval_freq = 5`: the claim's test `10 % 5 <
0` is false, yet evaluation fires because line 446 compares with `≤`.
Second: two learning decisions (`train_ids = [true, true]`,
`global_step` 4 → 6), `eval_freq = 5`: the claim's test `6 % 5 < 2` is
true, yet evaluation does not fire because line 446 sums the re-read
`train_ids` of the next sub-step (`[false, false]`). -/
theorem eval_cadence_counterexample :
    ((substepCadence 10 [false, false] 7 7 5 [false, false]).evalFires = true
      ∧ ¬((substepCadence 10 [false, false] 7 7 5 [false, false]).globalStep
            % 5 < countTrue [false, false]))
    ∧ ((substepCadence 4 [true, true] 7 7 5 [false, false]).evalFires = false
      ∧ ((substepCadence 4 [true, true] 7 7 5 [false, false]).globalStep
            % 5 < countTrue [true, true])) := by
  decide

/-- C3 (amended): the evaluation check does not reuse the checkpoint /
opponent-replace edge-trigger test.  The checkpoint and replace checks fire
iff `global_step mod period` (after this sub-step's advance) is strictly
less than the count of learning-agent decisions taken this sub-step, while
the evaluation check fires iff `global_step mod eval_freq` is less than or
equal to the count of `true` entries of the `train_ids` re-read after the
environment step, i.e. the learning-agent rows of the NEXT sub-step. -/
theorem eval_cadence_amended (global_step : Nat) (train_ids : List Bool)
    (checkpoint_freq replace_freq eval_freq : Nat)
    (train_ids_next : List Bool) :
    ((substepCadence global_step train_ids checkpoint_freq replace_freq
        eval_freq train_ids_next).evalFires = true ↔
      (substepCadence global_step train_ids checkpoint_freq replace_freq
        eval_freq train_ids_next).globalStep % eval_freq ≤
        countTrue train_ids_next)
    ∧ ((substepCadence global_step train_ids checkpoint_freq replace_freq
        eval_freq train_ids_next).checkpointFires = true ↔
      (substepCadence global_step train_ids checkpoint_freq replace_freq
        eval_freq train_ids_next).globalStep % checkpoint_freq <
        countTrue train_ids)
    ∧ ((substepCadence global_step train_ids checkpoint_freq replace_freq
        eval_freq train_ids_next).replaceFires = true ↔
      (substepCadence global_step train_ids checkpoint_freq replace_freq
        eval_freq train_ids_next).globalStep % replace_freq <
        countTrue train_ids) := by
  refine ⟨?_, ?_, ?_⟩ <;> simp [substepCadence]

/-- C9: `global_step` advances by exactly the number of environments whose
`train_ids` entry is true this sub-step — zero when there are no
learning-agent rows — and that count never exceeds `num_envs` (the filter's
length); it is not an unconditional advance by `num_envs`. -/
theorem global_step_advance (global_step : Nat) (train_ids : List Bool)
    (checkpoint_freq replace_freq eval_freq : Nat)
    (train_ids_next : List Bool) :
    (substepCadence global_step train_ids checkpoint_freq replace_freq
        eval_freq train_ids_next).globalStep =
      global_step + countTrue train_ids
    ∧ (countTrue train_ids = 0 →
      (substepCadence global_step train_ids checkpoint_freq replace_freq
        eval_freq train_ids_next).globalStep = global_step)
    ∧ countTrue train_ids ≤ train_ids.length := by
  refine ⟨?_, fun h => ?_, countTrue_le_length train_ids⟩
  · by_cases h : countTrue train_ids = 0 <;>
      simp [substepCadence, h]
  · simp [substepCadence, h]

/-- Witness for the amended C3 at a concrete sub-step (`global_step = 10`,
`eval_freq = 5`, no learning decisions this sub-step, none next): the
evaluation fires and `10 % 5 ≤ 0` holds. -/
theorem eval_cadence_amended_witness :
    (substepCadence 10 [false, false] 7 7 5 [false, false]).evalFires = true
    := by
  exact (eval_cadence_amended 10 [false, false] 7 7 5 [false, false]).1.mpr
    (by decide)

/-- Witness for C9: a sub-step with no learning-agent rows leaves
`global_step` at its previous value (here 5). -/
theorem global_step_advance_witness :
    (substepCadence 5 [false, false] 3 3 3 [false, false]).globalStep = 5
    := by
  exact (global_step_advance 5 [false, false] 3 3 3 [false, false]).2.1
    (by decide)

/-! ## `split_obs` / `merge_actions` (`ppo-selfplay.py` 83-104)

`split_obs` partitions the rows of the `[num_envs, D]` observation and mask
tensors by boolean-mask indexing: `obs[obs_filter]` keeps the rows at
`true` filter positions in their original relative order, `obs[~obs_filter]`
the rows at `false` positions.  A row is embedded as one opaque element.

`merge_actions` re-interleaves two action batches:

```
i = j = 0
results = torch.zeros(actions.shape[0] + opp_actions.shape[0], ...)
for id in train_ids:
    if id: results[i+j] = actions[i]; i += 1
    else:  results[i+j] = opp_actions[j]; j += 1
```
-/

/-- Boolean-mask row selection `rows[filter]` (rows at `true` positions, in
order). -/
def maskSelect {α : Type} : List Bool → List α → List α
  | [], _ => []
  | _ :: _, [] => []
  | b :: fs, x :: xs => if b then x :: maskSelect fs xs else maskSelect fs xs

/-- `split_obs(obs, mask, filter)` =
`((obs(true rows), obs(false rows)), (mask(true rows), mask(false rows)))`. -/
def split_obs {α β : Type} (obs : List α) (mask : List β)
    (filter : List Bool) : (List α × List α) × (List β × List β) :=
  ((maskSelect filter obs, maskSelect (filter.map (fun b => !b)) obs),
   (maskSelect filter mask, maskSelect (filter.map (fun b => !b)) mask))

/-- `merge_actions(train_ids, actions, opp_actions)`: row `i+j` of the
result comes from `actions` when `train_ids` says the learning agent acted,
else from `opp_actions`, each source consumed in order.  If a source is
exhausted while its flag comes up the Python code raises `IndexError`; the
claims only use the 1:1 case where each source has exactly as many rows as
its flag count. -/
def merge_actions {α : Type} : List Bool → List α → List α → List α
  | [], _, _ => []
  | true :: ids, a :: acts, opps => a :: merge_actions ids acts opps
  | false :: ids, acts, o :: opps => o :: merge_actions ids acts opps
  | true :: _, [], _ => []
  | false :: _, _, [] => []

@[simp] theorem maskSelect_nil {α : Type} (fs : List Bool) :
    maskSelect fs ([] : List α) = [] := by
  cases fs <;> rfl

@[simp] theorem maskSelect_cons_true {α : Type} (fs : List Bool) (x : α)
    (xs : List α) : maskSelect (true :: fs) (x :: xs) = x :: maskSelect fs xs
    := rfl

@[simp] theorem maskSelect_cons_false {α : Type} (fs : List Bool) (x : α)
    (xs : List α) : maskSelect (false :: fs) (x :: xs) = maskSelect fs xs
    := rfl

/-- The two groups produced by boolean-mask selection preserve the original
relative row order: each is a sublist of the input rows. -/
theorem maskSelect_sublist {α : Type} (fs : List Bool) :
    ∀ xs : List α, (maskSelect fs xs).Sublist xs := by
  induction fs with
  | nil => intro xs; simp [maskSelect]
  | cons b fs ih =>
    intro xs
    cases xs with
    | nil => simp
    | cons x xs =>
      cases b with
      | true => exact List.Sublist.cons₂ x (ih xs)
      | false => exact List.Sublist.cons x (ih xs)

/-- Round trip: merging per-row images of the two split groups rebuilds the
original row order. -/
theorem merge_maskSelect {α β : Type} (f : α → β) (fs : List Bool) :
    ∀ xs : List α, fs.length = xs.length →
      merge_actions fs ((maskSelect fs xs).map f)
        ((maskSelect (fs.map (fun b => !b)) xs).map f) = xs.map f := by
  induction fs with
  | nil =>
    intro xs hlen
    rw [(by simpa using hlen.symm : xs = [])]
    rfl
  | cons b fs ih =>
    intro xs hlen
    cases xs with
    | nil => exact absurd hlen (by simp)
    | cons x xs =>
      cases b with
      | true =>
        simp only [List.map_cons, Bool.not_true, maskSelect_cons_true,
          maskSelect_cons_false, merge_actions]
        rw [ih xs (by simpa using hlen)]
      | false =>
        simp only [List.map_cons, Bool.not_false, maskSelect_cons_true,
          maskSelect_cons_false, merge_actions]
        rw [ih xs (by simpa using hlen)]

/-- C7: Split then Merge is the identity on row order.  For equally long
observation, mask and filter batches, the split groups preserve relative
row order (they are sublists of the originals), and merging action rows
derived 1:1 from the two observation groups (true-group rows consumed in
order at `true` filter positions, false-group rows at `false` positions)
yields a batch of `len(filter)` rows whose row `i` is the action derived
from original row `i`. -/
theorem split_merge_round_trip {α β γ : Type} (obs : List α) (mask : List β)
    (filter : List Bool) (act : α → γ)
    (hobs : filter.length = obs.length)
    (_hmask : filter.length = mask.length) :
    ((split_obs obs mask filter).1.1).Sublist obs
    ∧ ((split_obs obs mask filter).1.2).Sublist obs
    ∧ ((split_obs obs mask filter).2.1).Sublist mask
    ∧ ((split_obs obs mask filter).2.2).Sublist mask
    ∧ merge_actions filter (((split_obs obs mask filter).1.1).map act)
        (((split_obs obs mask filter).1.2).map act) = obs.map act
    ∧ (merge_actions filter (((split_obs obs mask filter).1.1).map act)
        (((split_obs obs mask filter).1.2).map act)).length = filter.length
    := by
  have hmerge := merge_maskSelect act filter obs hobs
  refine ⟨maskSelect_sublist filter obs, ?_, maskSelect_sublist filter mask,
    ?_, hmerge, ?_⟩
  · exact maskSelect_sublist (filter.map (fun b => !b)) obs
  · exact maskSelect_sublist (filter.map (fun b => !b)) mask
  · show (merge_actions filter ((maskSelect filter obs).map act)
      ((maskSelect (filter.map (fun b => !b)) obs).map act)).length =
        filter.length
    rw [hmerge, List.length_map, hobs]

/-- Witness for C7 on a concrete batch: filter `[true, false, true]`,
observation rows `[10, 20, 30]`, action = row + 1; the merge rebuilds
`[11, 21, 31]`. -/
theorem split_merge_round_trip_witness :
    merge_actions [true, false, true]
        (((split_obs [10, 20, 30] [5, 6, 7] [true, false, true]).1.1).map
          (fun n : Nat => n + 1))
        (((split_obs [10, 20, 30] [5, 6, 7] [true, false, true]).1.2).map
          (fun n : Nat => n + 1)) = [11, 21, 31] := by
  have h := split_merge_round_trip [10, 20, 30] [5, 6, 7]
    [true, false, true] (fun n : Nat => n + 1) (by decide) (by decide)
  calc merge_actions [true, false, true]
        (((split_obs [10, 20, 30] [5, 6, 7] [true, false, true]).1.1).map
          (fun n : Nat => n + 1))
        (((split_obs [10, 20, 30] [5, 6, 7] [true, false, true]).1.2).map
          (fun n : Nat => n + 1))
      = ([10, 20, 30] : List Nat).map (fun n => n + 1) := h.2.2.2.2.1
    _ = [11, 21, 31] := by decide

/-! ## `SelfPlayAssistant` (`ppo-selfplay.py` 21-81)

The pool fields are two `deque(maxlen=window)` instances.  A deque entry is
either an in-memory agent copy (memory mode) or a checkpoint file path
(disk mode).  Python's `random.Random(seed)` is an external library; it is
embedded as an abstract deterministic generator: a `(seed, counter)` state
plus draw functions that are parameters of the theorems. -/

/-- One pool entry: a checkpoint path (disk mode) or an agent (memory
mode). -/
inductive PoolEntry (A : Type) where
  | path (p : String)
  | agent (a : A)
deriving DecidableEq

/-- `deque(maxlen=w).append x`: append on the right; when the length would
exceed `maxlen`, the leftmost (oldest) element is evicted. -/
def dequeAppend {α : Type} (maxlen : Nat) (xs : List α) (x : α) : List α :=
  let ys := xs ++ [x]
  if maxlen < ys.length then ys.tail else ys

/-- `__init__` line 36-38: `if not seed: seed = random.randint(0, 100000)`.
An integer seed is falsy exactly when it is 0, so a supplied seed of 0 is
replaced by the freshly drawn `fresh`; any nonzero seed is kept. -/
def spaSeed (seed fresh : Int) : Int :=
  if seed = 0 then fresh else seed

structure SelfPlayAssistant (A : Type) where
  checkpoint_freq : Nat
  window : Nat
  replace_freq : Nat
  self_play_prob : ℚ
  checkpoints : List (PoolEntry A)
  save_steps : List Nat
  save_checkpoints : Bool
  checkpoint_dir : String
  seed : Int

/-- `SelfPlayAssistant.__init__` (lines 27-39); `fresh` is the
`random.randint(0, 100000)` draw used only when the supplied seed is
falsy. -/
def SelfPlayAssistant.init (A : Type) (checkpoint_freq window replace_freq :
    Nat) (self_play_prob : ℚ) (save_checkpoints : Bool)
    (checkpoint_dir : String) (seed fresh : Int) : SelfPlayAssistant A :=
  { checkpoint_freq := checkpoint_freq
    window := window
    replace_freq := replace_freq
    self_play_prob := self_play_prob
    checkpoints := []
    save_steps := []
    save_checkpoints := save_checkpoints
    checkpoint_dir := checkpoint_dir
    seed := spaSeed seed fresh }

/-- `update_pool` (lines 46-56): append the new entry — the
`checkpoint_<steps>.pt` path in disk mode, the agent itself in memory
mode — to `checkpoints`, and `steps` to `save_steps`, both bounded
deques. -/
def update_pool {A : Type} (spa : SelfPlayAssistant A) (agent : A)
    (steps : Nat) : SelfPlayAssistant A :=
  let entry := if spa.save_checkpoints then
      PoolEntry.path (spa.checkpoint_dir ++ "checkpoint_" ++
        toString steps ++ ".pt")
    else PoolEntry.agent agent
  { spa with
    checkpoints := dequeAppend spa.window spa.checkpoints entry
    save_steps := dequeAppend spa.window spa.save_steps steps }

/-- `add_checkpoint` (lines 71-81): both branches call `update_pool` with
the step; the in-memory branch first builds a fresh network carrying a copy
of the agent's parameters, embedded as an agent value equal to the
original. -/
def add_checkpoint {A : Type} (spa : SelfPlayAssistant A) (agent : A)
    (step : Nat) : SelfPlayAssistant A :=
  update_pool spa agent step

theorem dequeAppend_length {α : Type} (w : Nat) (xs : List α) (x : α) :
    (dequeAppend w xs x).length =
      if w < xs.length + 1 then xs.length else xs.length + 1 := by
  rw [dequeAppend]
  by_cases h : w < (xs ++ [x]).length
  · rw [if_pos h, List.length_tail, if_pos (by simpa using h)]
    simp
  · rw [if_neg h, if_neg (by simpa using h)]
    simp

/-- Appending to the rolling window of the last `w` elements of a history
`S` yields the rolling window of the last `w` elements of `S ++ [x]`. -/
theorem dequeAppend_drop {α : Type} (w : Nat) (S : List α) (x : α) :
    dequeAppend w (S.drop (S.length - w)) x =
      (S ++ [x]).drop (S.length + 1 - w) := by
  by_cases hlt : S.length < w
  · rw [show S.length - w = 0 by omega, List.drop_zero, dequeAppend]
    rw [if_neg (by simp; omega), show S.length + 1 - w = 0 by omega,
      List.drop_zero]
  · have hw : w ≤ S.length := by omega
    have hdroplen : (S.drop (S.length - w)).length = w := by
      simp; omega
    rw [dequeAppend]
    rw [if_pos (by simp [hdroplen])]
    cases hcase : S.drop (S.length - w) with
    | nil =>
      have hw0 : w = 0 := by
        have h2 := hdroplen
        rw [hcase] at h2
        simpa using h2.symm
      subst hw0
      simp only [List.nil_append, List.tail_cons]
      rw [List.drop_eq_nil_of_le (by simp)]
    | cons y ys =>
      simp only [List.cons_append, List.tail_cons]
      have hw1 : 1 ≤ w := by
        rw [hcase] at hdroplen
        simp at hdroplen
        omega
      have hys : ys = S.drop (S.length - w + 1) := by
        have h3 := congrArg List.tail hcase
        simpa [List.tail_drop] using h3.symm
      rw [hys, show S.length - w + 1 = S.length + 1 - w by omega]
      rw [List.drop_append_of_le_length (by omega)]

/-- Invariant form of C6, generalised over the accumulated history `S` of
steps already in the pool. -/
theorem add_checkpoint_fold_invariant {A : Type} (calls : List (A × Nat)) :
    ∀ (spa : SelfPlayAssistant A) (S : List Nat),
      spa.save_steps = S.drop (S.length - spa.window) →
      spa.checkpoints.length = spa.save_steps.length →
      ((calls.foldl (fun s c => add_checkpoint s c.1 c.2) spa).window =
          spa.window
      ∧ (calls.foldl (fun s c => add_checkpoint s c.1 c.2) spa).save_steps =
          (S ++ calls.map Prod.snd).drop
            (S.length + calls.length - spa.window)
      ∧ (calls.foldl (fun s c => add_checkpoint s c.1 c.2)
            spa).checkpoints.length =
          (calls.foldl (fun s c => add_checkpoint s c.1 c.2)
            spa).save_steps.length) := by
  induction calls with
  | nil =>
    intro spa S hS hlen
    refine ⟨rfl, ?_, hlen⟩
    simpa using hS
  | cons c calls ih =>
    intro spa S hS hlen
    have hstep : (add_checkpoint spa c.1 c.2).save_steps =
        (S ++ [c.2]).drop ((S ++ [c.2]).length - spa.window) := by
      show dequeAppend spa.window spa.save_steps c.2 = _
      rw [hS, dequeAppend_drop]
      simp
    have hsteplen : (add_checkpoint spa c.1 c.2).checkpoints.length =
        (add_checkpoint spa c.1 c.2).save_steps.length := by
      show (dequeAppend spa.window spa.checkpoints _).length =
        (dequeAppend spa.window spa.save_steps c.2).length
      rw [dequeAppend_length, dequeAppend_length, hlen]
    have hwin : (add_checkpoint spa c.1 c.2).window = spa.window := rfl
    have := ih (add_checkpoint spa c.1 c.2) (S ++ [c.2])
      (by rw [hstep, hwin]) hsteplen
    refine ⟨by rw [List.foldl_cons] at *; rw [this.1, hwin], ?_, ?_⟩
    · rw [List.foldl_cons, this.2.1, hwin, List.append_assoc,
        List.singleton_append, List.map_cons]
      congr 1
      simp only [List.length_append, List.length_cons, List.length_nil]
      omega
    · rw [List.foldl_cons] at *
      exact this.2.2

/-- C6: for every sequence of `add_checkpoint` calls on a freshly
constructed `SelfPlayAssistant` with capacity `window`, the two pool deques
always have equal length, that length is `min(calls, window)`, and the
retained steps are exactly the `window` most recently added ones in
insertion order (the history minus its oldest overflow prefix). -/
theorem add_checkpoint_window_invariant {A : Type}
    (checkpoint_freq window replace_freq : Nat) (self_play_prob : ℚ)
    (save_checkpoints : Bool) (checkpoint_dir : String) (seed fresh : Int)
    (calls : List (A × Nat)) :
    ((calls.foldl (fun s c => add_checkpoint s c.1 c.2)
        (SelfPlayAssistant.init A checkpoint_freq window replace_freq
          self_play_prob save_checkpoints checkpoint_dir seed
          fresh)).checkpoints.length =
      (calls.foldl (fun s c => add_checkpoint s c.1 c.2)
        (SelfPlayAssistant.init A checkpoint_freq window replace_freq
          self_play_prob save_checkpoints checkpoint_dir seed
          fresh)).save_steps.length)
    ∧ ((calls.foldl (fun s c => add_checkpoint s c.1 c.2)
        (SelfPlayAssistant.init A checkpoint_freq window replace_freq
          self_play_prob save_checkpoints checkpoint_dir seed
          fresh)).save_steps.length = min calls.length window)
    ∧ ((calls.foldl (fun s c => add_checkpoint s c.1 c.2)
        (SelfPlayAssistant.init A checkpoint_freq window replace_freq
          self_play_prob save_checkpoints checkpoint_dir seed
          fresh)).save_steps =
      (calls.map Prod.snd).drop (calls.length - window)) := by
  have h := add_checkpoint_fold_invariant calls
    (SelfPlayAssistant.init A checkpoint_freq window replace_freq
      self_play_prob save_checkpoints checkpoint_dir seed fresh)
    [] (by simp [SelfPlayAssistant.init]) rfl
  have hsteps := h.2.1
  have hwin0 : (SelfPlayAssistant.init A checkpoint_freq window replace_freq
      self_play_prob save_checkpoints checkpoint_dir seed fresh).window =
      window := rfl
  rw [hwin0] at hsteps
  simp only [List.nil_append, List.length_nil, Nat.zero_add] at hsteps
  refine ⟨h.2.2, ?_, hsteps⟩
  rw [hsteps]
  simp only [List.length_drop, List.length_map]
  omega

/-! ## `sample_opponent` (`ppo-selfplay.py` 58-69)

```
def sample_opponent(self):
    if self.rnd.random() < self.self_play_prob:
        checkpoint_id = len(self.checkpoints) - 1
    else:
        checkpoint_id = self.rnd.randint(0, len(self.checkpoints)-1)
    print(...)
    if self.save_checkpoints:
        agent = torch.load(self.checkpoints.get(checkpoint_id))
    else:
        agent = self.checkpoints[checkpoint_id]
    return agent
```

`self.rnd` is a `random.Random(seed)` instance: a deterministic generator
fully determined by its seed and by how many values have been drawn.  It is
embedded as a `(seed, counter)` state together with abstract draw functions
`randF seed counter` (the value `random()` returns in that state) and
`randintF seed counter lo hi` (the value `randint(lo, hi)` returns), which
are parameters of the development — the theorems hold for every
deterministic generator. -/

structure PRNG where
  seed : Int
  counter : Nat
deriving DecidableEq

/-- Drawing one value advances the generator state. -/
def PRNG.next (g : PRNG) : PRNG := ⟨g.seed, g.counter + 1⟩

/-- The selection logic of `sample_opponent` (lines 59-63): with
`random() < self_play_prob` the last pool index, otherwise
`randint(0, len-1)` — a uniformly random index over the whole pool,
including possibly the last.  Returns the chosen index and the advanced
generator. -/
def sample_opponent_id (randF : Int → Nat → ℚ)
    (randintF : Int → Nat → Nat → Nat → Nat) (p : ℚ) (n : Nat)
    (g : PRNG) : Nat × PRNG :=
  if randF g.seed g.counter < p then (n - 1, g.next)
  else (randintF g.next.seed g.next.counter 0 (n - 1), g.next.next)

/-- The attributes of Python's `collections.deque`. -/
def dequeAttrs : List String :=
  ["append", "appendleft", "clear", "copy", "count", "extend",
   "extendleft", "index", "insert", "maxlen", "pop", "popleft",
   "remove", "reverse", "rotate"]

/-- `sample_opponent` (lines 58-69).  In memory mode the selected pool
entry is returned directly (entries are agents there); in disk mode the
source evaluates `self.checkpoints.get(checkpoint_id)` — an attribute
lookup on a `collections.deque`, whose attribute set is `dequeAttrs`;
`get` is not a deque attribute, so the lookup raises `AttributeError`
before `torch.load` can run. -/
def sample_opponent {A : Type} (randF : Int → Nat → ℚ)
    (randintF : Int → Nat → Nat → Nat → Nat) (load : String → A)
    (dflt : A) (spa : SelfPlayAssistant A) (g : PRNG) :
    Except String (A × PRNG) :=
  let sel := sample_opponent_id randF randintF spa.self_play_prob
    spa.checkpoints.length g
  if spa.save_checkpoints then
    if dequeAttrs.contains "get" then
      .ok (match spa.checkpoints.getD sel.1 (PoolEntry.agent dflt) with
        | PoolEntry.path p => (load p, sel.2)
        | PoolEntry.agent a => (a, sel.2))
    else .error "AttributeError: deque object has no attribute get"
  else
    .ok (match spa.checkpoints.getD sel.1 (PoolEntry.agent dflt) with
      | PoolEntry.agent a => (a, sel.2)
      | PoolEntry.path p => (load p, sel.2))

/-- C4 (the code, evaluated): in disk mode (`save_checkpoints = true`)
every call of `sample_opponent` fails with `AttributeError` — `deque` has
no `get` attribute — instead of loading the selected checkpoint path. -/
theorem sample_opponent_disk_mode_raises {A : Type}
    (randF : Int → Nat → ℚ) (randintF : Int → Nat → Nat → Nat → Nat)
    (load : String → A) (dflt : A) (spa : SelfPlayAssistant A) (g : PRNG)
    (hdisk : spa.save_checkpoints = true) :
    sample_opponent randF randintF load dflt spa g =
      .error "AttributeError: deque object has no attribute get" := by
  rw [sample_opponent, if_pos hdisk, if_neg]
  intro hget
  exact absurd hget (by decide)

/-- Witness for C4 at the failing input: a disk-mode assistant holding one
checkpoint path. -/
theorem sample_opponent_disk_mode_raises_witness :
    sample_opponent (fun _ _ => (0 : ℚ)) (fun _ _ _ _ => 0)
      (fun _ => (0 : Nat)) 0
      { checkpoint_freq := 50000, window := 10, replace_freq := 10000,
        self_play_prob := 7/10,
        checkpoints := [PoolEntry.path "checkpoint_0.pt"],
        save_steps := [0], save_checkpoints := true,
        checkpoint_dir := "", seed := 1 }
      ⟨1, 0⟩ =
      .error "AttributeError: deque object has no attribute get" := by
  exact sample_opponent_disk_mode_raises (fun _ _ => (0 : ℚ))
    (fun _ _ _ _ => 0) (fun _ => (0 : Nat)) 0 _ ⟨1, 0⟩ rfl

/-! ## Seed handling and reproducibility (C10) -/

/-- The sequence of pool indices produced by `k` successive
`sample_opponent` selections over a pool of constant size `n`. -/
def sampleSeq (randF : Int → Nat → ℚ)
    (randintF : Int → Nat → Nat → Nat → Nat) (p : ℚ) (n : Nat) :
    Nat → PRNG → List Nat
  | 0, _ => []
  | k + 1, g =>
    (sample_opponent_id randF randintF p n g).1 ::
      sampleSeq randF randintF p n k (sample_opponent_id randF randintF
        p n g).2

/-- C10: for every deterministic generator, a nonzero supplied seed makes
the selection sequence independent of the fallback draw (two assistants
constructed with the same nonzero seed sample identically); a supplied
seed of 0 is falsy, so `__init__` replaces it by the freshly drawn random
seed, and two assistants constructed with seed 0 can indeed produce
different selection sequences. -/
theorem opponent_sampling_reproducibility :
    (∀ (randF : Int → Nat → ℚ) (randintF : Int → Nat → Nat → Nat → Nat)
      (p : ℚ) (n k : Nat) (seed fresh1 fresh2 : Int), seed ≠ 0 →
      sampleSeq randF randintF p n k ⟨spaSeed seed fresh1, 0⟩ =
        sampleSeq randF randintF p n k ⟨spaSeed seed fresh2, 0⟩)
    ∧ (∀ fresh : Int, spaSeed 0 fresh = fresh)
    ∧ ∃ (randF : Int → Nat → ℚ) (randintF : Int → Nat → Nat → Nat → Nat)
        (p : ℚ) (n k : Nat) (fresh1 fresh2 : Int),
        sampleSeq randF randintF p n k ⟨spaSeed 0 fresh1, 0⟩ ≠
          sampleSeq randF randintF p n k ⟨spaSeed 0 fresh2, 0⟩ := by
  refine ⟨?_, ?_, ?_⟩
  · intro randF randintF p n k seed fresh1 fresh2 hseed
    rw [spaSeed, if_neg hseed, spaSeed, if_neg hseed]
  · intro fresh
    rw [spaSeed, if_pos rfl]
  · refine ⟨fun s _ => if s = 1 then 0 else 1, fun _ _ _ _ => 5, 1/2, 10,
      1, 1, 2, ?_⟩
    norm_num [sampleSeq, sample_opponent_id, spaSeed]

/-- Witness for C10's reproducibility conjunct at seed 7 (nonzero): the
fallback draws 1 and 2 are irrelevant, the sequences coincide. -/
theorem opponent_sampling_reproducibility_witness :
    sampleSeq (fun _ _ => (0 : ℚ)) (fun _ _ _ _ => 0) (1/2) 3 2
        ⟨spaSeed 7 1, 0⟩ =
      sampleSeq (fun _ _ => (0 : ℚ)) (fun _ _ _ _ => 0) (1/2) 3 2
        ⟨spaSeed 7 2, 0⟩ := by
  exact opponent_sampling_reproducibility.1 (fun _ _ => (0 : ℚ))
    (fun _ _ _ _ => 0) (1/2) 3 2 7 1 2 (by decide)

/-! ## Generalized advantage estimation (`ppo-selfplay.py` 451-462)

```
advantages = torch.zeros_like(rewards).to(device)
lastgaelam = 0
for t in reversed(range(args.num_steps - 2)):
    nextnonterminal = 1.0 - dones[t + 1]
    nextvalues = values[t + 1] * (steps > t).int()
    delta = rewards[t] + args.gamma * nextvalues * nextnonterminal - values[t]
    advantages[t] = lastgaelam = delta + args.gamma * args.gae_lambda * nextnonterminal * lastgaelam
returns = advantages + values
```
All tensor operations are elementwise over the environment axis `i`;
`steps` is the per-environment cursor vector. -/

structure GaeState where
  advantages : Nat → Nat → ℚ
  lastgaelam : Nat → ℚ

/-- `nextnonterminal = 1.0 - dones[t + 1]` (per environment `i`). -/
def nextnonterminalAt (dones : Nat → Nat → ℚ) (t i : Nat) : ℚ :=
  1 - dones (t + 1) i

/-- `nextvalues = values[t + 1] * (steps > t).int()`. -/
def nextvaluesAt (values : Nat → Nat → ℚ) (steps : Nat → Nat)
    (t i : Nat) : ℚ :=
  values (t + 1) i * (if t < steps i then 1 else 0)

/-- `delta = rewards[t] + gamma * nextvalues * nextnonterminal - values[t]`. -/
def deltaAt (γ : ℚ) (rewards dones values : Nat → Nat → ℚ)
    (steps : Nat → Nat) (t i : Nat) : ℚ :=
  rewards t i + γ * nextvaluesAt values steps t i *
    nextnonterminalAt dones t i - values t i

/-- One iteration of the backward loop at index `t`:
`advantages[t] = lastgaelam = delta + gamma * gae_lambda * nextnonterminal * lastgaelam`. -/
def gaeStep (γ lam : ℚ) (rewards dones values : Nat → Nat → ℚ)
    (steps : Nat → Nat) (t : Nat) (st : GaeState) : GaeState :=
  { advantages := fun u i =>
      if u = t then
        deltaAt γ rewards dones values steps t i +
          γ * lam * nextnonterminalAt dones t i * st.lastgaelam i
      else st.advantages u i
    lastgaelam := fun i =>
      deltaAt γ rewards dones values steps t i +
        γ * lam * nextnonterminalAt dones t i * st.lastgaelam i }

/-- The whole pass: `for t in reversed(range(num_steps - 2))` starting from
zero-initialised advantages and a zero `lastgaelam`. -/
def gaePass (num_steps : Nat) (γ lam : ℚ)
    (rewards dones values : Nat → Nat → ℚ) (steps : Nat → Nat) : GaeState :=
  ((List.range (num_steps - 2)).reverse).foldl
    (fun st t => gaeStep γ lam rewards dones values steps t st)
    { advantages := fun _ _ => 0, lastgaelam := fun _ => 0 }

/-- `returns = advantages + values` (line 462). -/
def returnsOf (st : GaeState) (values : Nat → Nat → ℚ) (t i : Nat) : ℚ :=
  st.advantages t i + values t i

/-- Countdown form of the backward loop: `gaeLoop k st` processes the
indices `k-1, k-2, …, 0` in that order. -/
def gaeLoop (γ lam : ℚ) (rewards dones values : Nat → Nat → ℚ)
    (steps : Nat → Nat) : Nat → GaeState → GaeState
  | 0, st => st
  | k + 1, st => gaeLoop γ lam rewards dones values steps k
      (gaeStep γ lam rewards dones values steps k st)

theorem gaeLoop_succ (γ lam : ℚ) (rewards dones values : Nat → Nat → ℚ)
    (steps : Nat → Nat) (k : Nat) (st : GaeState) :
    gaeLoop γ lam rewards dones values steps (k + 1) st =
      gaeLoop γ lam rewards dones values steps k
        (gaeStep γ lam rewards dones values steps k st) := rfl

/-- The fold over `reversed(range(k))` is the countdown loop. -/
theorem foldl_reverse_range_eq_gaeLoop (γ lam : ℚ)
    (rewards dones values : Nat → Nat → ℚ) (steps : Nat → Nat) (k : Nat) :
    ∀ st : GaeState,
      ((List.range k).reverse).foldl
        (fun st t => gaeStep γ lam rewards dones values steps t st) st =
      gaeLoop γ lam rewards dones values steps k st := by
  induction k with
  | zero => intro st; rfl
  | succ k ih =>
    intro st
    rw [List.range_succ, List.reverse_append, List.reverse_singleton,
      List.singleton_append, List.foldl_cons, ih, gaeLoop_succ]

/-- Indices at or above the loop's upper bound are never written. -/
theorem gaeLoop_adv_ge (γ lam : ℚ) (rewards dones values : Nat → Nat → ℚ)
    (steps : Nat → Nat) (k : Nat) :
    ∀ (st : GaeState) (u i : Nat), k ≤ u →
      (gaeLoop γ lam rewards dones values steps k st).advantages u i =
        st.advantages u i := by
  induction k with
  | zero => intro st u i _; rfl
  | succ k ih =>
    intro st u i hu
    rw [gaeLoop_succ, ih _ u i (by omega)]
    show (if u = k then _ else st.advantages u i) = st.advantages u i
    rw [if_neg (by omega)]

/-- The value the loop leaves at a visited index `t`: the recurrence of the
source, with the previous iteration's value (`advantages[t+1]` when `t+1`
was visited, the incoming `lastgaelam` when `t` is the first index
processed). -/
theorem gaeLoop_adv_lt (γ lam : ℚ) (rewards dones values : Nat → Nat → ℚ)
    (steps : Nat → Nat) (k : Nat) :
    ∀ (st : GaeState) (t i : Nat), t < k →
      (gaeLoop γ lam rewards dones values steps k st).advantages t i =
        deltaAt γ rewards dones values steps t i +
          γ * lam * nextnonterminalAt dones t i *
          (if t + 1 < k then
            (gaeLoop γ lam rewards dones values steps k st).advantages
              (t + 1) i
          else st.lastgaelam i) := by
  induction k with
  | zero => intro st t i ht; exact absurd ht (by omega)
  | succ k ih =>
    intro st t i ht
    by_cases htk : t < k
    · rw [gaeLoop_succ]
      rw [ih (gaeStep γ lam rewards dones values steps k st) t i htk]
      congr 1
      by_cases ht1 : t + 1 < k
      · rw [if_pos ht1, if_pos (by omega)]
      · have ht1k : t + 1 = k := by omega
        rw [if_neg ht1, if_pos (by omega), ht1k,
          gaeLoop_adv_ge γ lam rewards dones values steps k _ k i
            (Nat.le_refl k)]
        have heq : (gaeStep γ lam rewards dones values steps k
            st).advantages k i =
            (gaeStep γ lam rewards dones values steps k st).lastgaelam i :=
          by simp [gaeStep]
        rw [heq]
    · have htk' : t = k := by omega
      subst htk'
      rw [gaeLoop_succ,
        gaeLoop_adv_ge γ lam rewards dones values steps t _ t i
          (Nat.le_refl t),
        if_neg (by omega)]
      simp [gaeStep]

/-- C5: the GAE backward pass visits exactly the indices
`num_steps - 3, …, 0` — the last two buffer rows keep their
zero-initialised advantages — and at each visited `t` the advantage obeys
`advantages[t] = delta(t) + gamma·gae_lambda·nextnonterminal(t)·lastgaelam`
with `lastgaelam` the advantage written at `t + 1` (or 0 for the first
processed index), `delta(t) = rewards[t] + gamma·nextvalues(t)·
nextnonterminal(t) − values[t]`, and the bootstrap term
`nextvalues(t) = values[t+1]·1[steps > t]` vanishing for every environment
whose filled length is at most `t`; `returns = advantages + values`. -/
theorem gae_backward_pass (num_steps : Nat) (γ lam : ℚ)
    (rewards dones values : Nat → Nat → ℚ) (steps : Nat → Nat) :
    (∀ t i, num_steps - 2 ≤ t →
      (gaePass num_steps γ lam rewards dones values steps).advantages t i
        = 0)
    ∧ (∀ t i, t < num_steps - 2 →
      (gaePass num_steps γ lam rewards dones values steps).advantages t i =
        deltaAt γ rewards dones values steps t i +
          γ * lam * nextnonterminalAt dones t i *
          (if t + 1 < num_steps - 2 then
            (gaePass num_steps γ lam rewards dones values
              steps).advantages (t + 1) i
          else 0))
    ∧ (∀ t i, steps i ≤ t → nextvaluesAt values steps t i = 0)
    ∧ (∀ t i, returnsOf (gaePass num_steps γ lam rewards dones values steps)
        values t i =
        (gaePass num_steps γ lam rewards dones values steps).advantages t i
          + values t i) := by
  have hpass : gaePass num_steps γ lam rewards dones values steps =
      gaeLoop γ lam rewards dones values steps (num_steps - 2)
        { advantages := fun _ _ => 0, lastgaelam := fun _ => 0 } :=
    foldl_reverse_range_eq_gaeLoop γ lam rewards dones values steps
      (num_steps - 2) _
  refine ⟨?_, ?_, ?_, fun t i => rfl⟩
  · intro t i ht
    rw [hpass, gaeLoop_adv_ge γ lam rewards dones values steps
      (num_steps - 2) _ t i ht]
  · intro t i ht
    rw [hpass, gaeLoop_adv_lt γ lam rewards dones values steps
      (num_steps - 2) _ t i ht]
  · intro t i ht
    rw [nextvaluesAt, if_neg (by omega), mul_zero]

/-- Concrete buffers for the C5 witness. -/
def rEx : Nat → Nat → ℚ := fun t _ => if t = 0 then 1 else 0

def dEx : Nat → Nat → ℚ := fun t _ => if t = 2 then 1 else 0

def vEx : Nat → Nat → ℚ := fun _ _ => 1 / 2

def sEx : Nat → Nat := fun _ => 1

/-- Witness for C5 with `num_steps = 5`, `gamma = 9/10`,
`gae_lambda = 19/20`: row 4 (≥ `num_steps − 2`) keeps advantage 0; at
`t = 2` (the first processed index) the advantage is exactly `delta`; and
with filled length `steps 0 = 1 ≤ 1` the bootstrap term at `t = 1`
vanishes. -/
theorem gae_backward_pass_witness :
    (gaePass 5 (9/10) (19/20) rEx dEx vEx sEx).advantages 4 0 = 0
    ∧ (gaePass 5 (9/10) (19/20) rEx dEx vEx sEx).advantages 2 0 =
        deltaAt (9/10) rEx dEx vEx sEx 2 0
    ∧ nextvaluesAt vEx sEx 1 0 = 0 := by
  have h := gae_backward_pass 5 (9/10) (19/20) rEx dEx vEx sEx
  refine ⟨h.1 4 0 (by omega), ?_, h.2.2.1 1 0 (by decide)⟩
  have h2 := h.2.1 2 0 (by omega)
  rw [if_neg (by omega)] at h2
  simpa using h2

end PpoSelfplay
